import Mathlib

/-!
# Verification of the ai-discord-bot provider-process orchestration core

Shallow embedding of the pieces of `src/claude/manager.ts`, `src/bot/client.ts`,
`src/utils/shell.ts` and `src/db/database.ts` that the specification's claims
are about, together with proofs (or refutations) of those claims.

Conventions:
* byte/character streams are `List Char`;
* the per-channel maps of `ClaudeManager` (JS `Map`) are association lists
  with lookup/insert/delete mirroring `Map.get`/`Map.set`/`Map.delete`;
* side effects (SIGTERM kills, Discord sends/edits, stdin writes) are
  reified as values of an `Effect` type returned next to the new state.
-/

namespace AiDiscordBot

/-! ## Association lists, modelling JS `Map` objects -/

/-- `Map.get`: the value bound to `k`, if any (first binding wins). -/
def aget {α : Type} : List (String × α) → String → Option α
  | [], _ => none
  | p :: m, k => if p.1 = k then some p.2 else aget m k

/-- `Map.delete`: remove every binding of `k`. -/
def adel {α : Type} : List (String × α) → String → List (String × α)
  | [], _ => []
  | p :: m, k => if p.1 = k then adel m k else p :: adel m k

/-- `Map.set`: bind `k` to `v`, dropping any previous binding. -/
def aset {α : Type} (m : List (String × α)) (k : String) (v : α) :
    List (String × α) :=
  (k, v) :: adel m k

/-! ## The Line Framer (claim C2)

`manager.ts`, stdout data handlers of `runClaudeCode` (lines 317-319) and
`runCodex` (lines 480-482):

```
buffer += rawData;
const lines = buffer.split("\n");
buffer = lines.pop() || "";
```

`buffer.split("\n")` cuts the buffer at every newline; `pop` removes the
trailing part (the bytes after the last newline), which becomes the new
buffer, and the remaining entries are the complete lines processed by the
loop body.  `splitCompleteLines` computes exactly that pair
(complete lines, trailing partial line). -/

/-- Prepend a character to the first complete line (or, if there is none,
to the partial-line buffer) of a framing result. -/
def consFirst (c : Char) : List (List Char) × List Char → List (List Char) × List Char
  | ([], buf) => ([], c :: buf)
  | (l :: ls, buf) => ((c :: l) :: ls, buf)

/-- Split a character stream at every newline: the list of complete
(newline-terminated) lines in order, and the trailing partial line.
This is `buffer.split("\n")` with the popped trailing element kept apart. -/
def splitCompleteLines : List Char → List (List Char) × List Char
  | [] => ([], [])
  | c :: rest =>
    if c = '\n' then
      ([] :: (splitCompleteLines rest).1, (splitCompleteLines rest).2)
    else consFirst c (splitCompleteLines rest)

/-- One `data` callback: append the chunk to the buffer, emit the complete
lines, keep the trailing partial line; then process the remaining chunks. -/
def feedChunks (buf : List Char) : List (List Char) → List (List Char) × List Char
  | [] => ([], buf)
  | ch :: rest =>
    let r := splitCompleteLines (buf ++ ch)
    let r2 := feedChunks r.2 rest
    (r.1 ++ r2.1, r2.2)

/-! ## JSON values

The JSON fragment the bot's stdin/stdout protocol actually uses: strings,
booleans, arrays and objects (every payload `sendToolResponse` constructs,
`manager.ts` lines 1216-1243, is built from these four).  `encodeJson`
mirrors `JSON.stringify` on this fragment (no added whitespace, the same
escaping rules for string characters); `parseJson` is a standard JSON
parser restricted to the same fragment, used to state re-parsing claims. -/

inductive Json where
  | str (s : List Char)
  | bool (b : Bool)
  | arr (xs : List Json)
  | obj (fs : List (List Char × Json))

instance : Inhabited Json := ⟨Json.obj []⟩

/-- Lower-case hexadecimal digit, as `JSON.stringify` emits in `\u00xx`. -/
def hexDigitChar (n : Nat) : Char :=
  if n < 10 then Char.ofNat ('0'.toNat + n) else Char.ofNat ('a'.toNat + (n - 10))

/-- `JSON.stringify` escaping of one string character. -/
def encodeChar (c : Char) : List Char :=
  if c = '"' then ['\\', '"']
  else if c = '\\' then ['\\', '\\']
  else if c = '\n' then ['\\', 'n']
  else if c = '\r' then ['\\', 'r']
  else if c = '\t' then ['\\', 't']
  else if c = '\x08' then ['\\', 'b']
  else if c = '\x0c' then ['\\', 'f']
  else if c.toNat < 32 then
    ['\\', 'u', '0', '0', hexDigitChar (c.toNat / 16), hexDigitChar (c.toNat % 16)]
  else [c]

def encodeStringLit : List Char → List Char
  | [] => []
  | c :: rest => encodeChar c ++ encodeStringLit rest

/-- A JSON string literal: `"` + escaped body + `"`. -/
def encodeStr (s : List Char) : List Char :=
  '"' :: (encodeStringLit s ++ ['"'])

mutual

/-- `JSON.stringify` on the fragment (no whitespace, insertion order kept). -/
def encodeJson : Json → List Char
  | .str s => encodeStr s
  | .bool true => ['t', 'r', 'u', 'e']
  | .bool false => ['f', 'a', 'l', 's', 'e']
  | .arr xs => '[' :: (encodeElems xs ++ [']'])
  | .obj fs => '\x7b' :: (encodeFields fs ++ ['\x7d'])

def encodeElems : List Json → List Char
  | [] => []
  | x :: xs => encodeJson x ++ encodeElemsSep xs

def encodeElemsSep : List Json → List Char
  | [] => []
  | x :: xs => ',' :: (encodeJson x ++ encodeElemsSep xs)

def encodeFields : List (List Char × Json) → List Char
  | [] => []
  | f :: fs => encodeStr f.1 ++ ':' :: encodeJson f.2 ++ encodeFieldsSep fs

def encodeFieldsSep : List (List Char × Json) → List Char
  | [] => []
  | f :: fs => ',' :: (encodeStr f.1 ++ ':' :: encodeJson f.2 ++ encodeFieldsSep fs)

end

/-- Value of one hexadecimal digit character. -/
def decodeHexDigit (c : Char) : Option Nat :=
  if '0' ≤ c ∧ c ≤ '9' then some (c.toNat - '0'.toNat)
  else if 'a' ≤ c ∧ c ≤ 'f' then some (c.toNat - 'a'.toNat + 10)
  else if 'A' ≤ c ∧ c ≤ 'F' then some (c.toNat - 'A'.toNat + 10)
  else none

/-- Decode a JSON string body (the opening quote already consumed) up to the
closing quote; returns the decoded characters and the unconsumed input. -/
def decodeStringLit : List Char → Option (List Char × List Char)
  | [] => none
  | c :: rest =>
    if c = '"' then some ([], rest)
    else if c = '\\' then
      match rest with
      | [] => none
      | e :: r =>
        if e = '"' then (decodeStringLit r).map (fun p => ('"' :: p.1, p.2))
        else if e = '\\' then
          (decodeStringLit r).map (fun p => ('\\' :: p.1, p.2))
        else if e = '/' then (decodeStringLit r).map (fun p => ('/' :: p.1, p.2))
        else if e = 'n' then (decodeStringLit r).map (fun p => ('\n' :: p.1, p.2))
        else if e = 'r' then (decodeStringLit r).map (fun p => ('\r' :: p.1, p.2))
        else if e = 't' then (decodeStringLit r).map (fun p => ('\t' :: p.1, p.2))
        else if e = 'b' then
          (decodeStringLit r).map (fun p => ('\x08' :: p.1, p.2))
        else if e = 'f' then
          (decodeStringLit r).map (fun p => ('\x0c' :: p.1, p.2))
        else if e = 'u' then
          match r with
          | a :: b :: c2 :: d :: r2 =>
            match decodeHexDigit a, decodeHexDigit b,
                decodeHexDigit c2, decodeHexDigit d with
            | some x1, some x2, some x3, some x4 =>
              (decodeStringLit r2).map
                (fun p =>
                  (Char.ofNat (((x1 * 16 + x2) * 16 + x3) * 16 + x4) :: p.1, p.2))
            | _, _, _, _ => none
          | _ => none
        else none
    else (decodeStringLit rest).map (fun p => (c :: p.1, p.2))

mutual

/-- Fueled recursive-descent parser for one JSON value of the fragment. -/
def parseJsonVal : Nat → List Char → Option (Json × List Char)
  | 0, _ => none
  | _ + 1, '"' :: rest => (decodeStringLit rest).map (fun p => (Json.str p.1, p.2))
  | _ + 1, 't' :: 'r' :: 'u' :: 'e' :: rest => some (Json.bool true, rest)
  | _ + 1, 'f' :: 'a' :: 'l' :: 's' :: 'e' :: rest => some (Json.bool false, rest)
  | fuel + 1, '[' :: rest =>
    match rest with
    | ']' :: r => some (Json.arr [], r)
    | _ =>
      match parseJsonVal fuel rest with
      | none => none
      | some (x, r) =>
        match parseElemsTail fuel r with
        | none => none
        | some (xs, r2) => some (Json.arr (x :: xs), r2)
  | fuel + 1, '\x7b' :: rest =>
    match rest with
    | '\x7d' :: r => some (Json.obj [], r)
    | _ =>
      match parseField fuel rest with
      | none => none
      | some (f, r) =>
        match parseFieldsTail fuel r with
        | none => none
        | some (fs, r2) => some (Json.obj (f :: fs), r2)
  | _ + 1, _ => none

/-- One `"key":value` field. -/
def parseField : Nat → List Char → Option ((List Char × Json) × List Char)
  | fuel + 1, '"' :: rest =>
    match decodeStringLit rest with
    | some (k, ':' :: r) => (parseJsonVal fuel r).map (fun p => ((k, p.1), p.2))
    | _ => none
  | _, _ => none

/-- After one array element: either `]` or `,` and further elements. -/
def parseElemsTail : Nat → List Char → Option (List Json × List Char)
  | _, ']' :: rest => some ([], rest)
  | fuel + 1, ',' :: rest =>
    match parseJsonVal fuel rest with
    | none => none
    | some (x, r) => (parseElemsTail fuel r).map (fun p => (x :: p.1, p.2))
  | _, _ => none

/-- After one object field: either the closing brace or `,` and more fields. -/
def parseFieldsTail : Nat → List Char → Option (List (List Char × Json) × List Char)
  | _, '\x7d' :: rest => some ([], rest)
  | fuel + 1, ',' :: rest =>
    match parseField fuel rest with
    | none => none
    | some (f, r) => (parseFieldsTail fuel r).map (fun p => (f :: p.1, p.2))
  | _, _ => none

end

mutual

/-- Enough parser fuel for a value. -/
def fuelOfJson : Json → Nat
  | .str _ => 1
  | .bool _ => 1
  | .arr xs => fuelOfElems xs + 1
  | .obj fs => fuelOfFields fs + 1

def fuelOfElems : List Json → Nat
  | [] => 0
  | x :: xs => fuelOfJson x + fuelOfElems xs + 1

def fuelOfFields : List (List Char × Json) → Nat
  | [] => 0
  | f :: fs => fuelOfJson f.2 + fuelOfFields fs + 2

end

/-- Parse a complete JSON document of the fragment (`JSON.parse`,
restricted to the shapes the bot's protocol uses; fails on anything else,
modelling the thrown `SyntaxError` as `none`). -/
def parseJson (s : List Char) : Option Json :=
  match parseJsonVal (s.length + 1) s with
  | some (j, []) => some j
  | _ => none

/-! ## Small JavaScript string helpers used by the handlers -/

/-- The whitespace characters `String.prototype.trim` removes (the common
ASCII ones; the bot's streams contain no exotic Unicode spaces). -/
def isJsWhitespace (c : Char) : Bool :=
  c = ' ' ∨ c = '\t' ∨ c = '\n' ∨ c = '\r' ∨ c = '\x0b' ∨ c = '\x0c'

/-- `s.trim()`. -/
def jsTrim (s : List Char) : List Char :=
  ((s.dropWhile isJsWhitespace).reverse.dropWhile isJsWhitespace).reverse

/-- `s.split("\n")[0]`: the prefix up to the first newline. -/
def firstLineOf (s : List Char) : List Char :=
  s.takeWhile (fun c => ¬ c = '\n')

/-- `s.replace(pat, repl)` for a non-empty literal pattern: replace the
first occurrence only, as the JavaScript string/string overload does. -/
def replaceFirst (p : Char) (ps repl : List Char) : List Char → List Char
  | [] => []
  | c :: rest =>
    if (p :: ps).isPrefixOf (c :: rest) then repl ++ rest.drop ps.length
    else c :: replaceFirst p ps repl rest

/-- `s.replaceAll(pat, repl)` for a non-empty literal pattern. -/
def replaceAllNE (p : Char) (ps repl : List Char) : List Char → List Char
  | [] => []
  | c :: rest =>
    if (p :: ps).isPrefixOf (c :: rest) then
      repl ++ replaceAllNE p ps repl (rest.drop ps.length)
    else c :: replaceAllNE p ps repl rest
termination_by l => l.length
decreasing_by
  · simp only [List.length_cons]
    have := List.length_drop ps.length rest
    omega
  · simp only [List.length_cons]
    omega

/-- `l.includes(sub)`: substring containment. -/
def containsSub (sub s : List Char) : Bool :=
  decide (sub <:+: s)

/-! ## Shell escaping (claim C9)

`src/utils/shell.ts` lines 471-474:

```
export function escapeShellString(str: string): string {
  // Replace ' with '\'' and wrap in single quotes
  return `'` + str.replace(/'/g, `'\\''`) + `'`;
}
```

Each single quote of the input becomes the four characters quote,
backslash, quote, quote; the whole is wrapped in single quotes. -/

def escapeShellBody : List Char → List Char
  | [] => []
  | c :: rest =>
    (if c = '\'' then ['\'', '\\', '\'', '\''] else [c]) ++ escapeShellBody rest

/-- `escapeShellString` over character lists. -/
def escapeShellString (s : List Char) : List Char :=
  '\'' :: (escapeShellBody s ++ ['\''])

/-- Characters that are special to a POSIX shell outside of quotes (word
splitting or expansion would fire on them); inside single quotes they are
literal.  `\x60` is the backquote, `\x7b`/`\x7d` the braces. -/
def shellSpecial (c : Char) : Bool :=
  c ∈ [' ', '\t', '\n', '|', '&', ';', '(', ')', '<', '>', '"', '$',
       '\x60', '*', '?', '[', ']', '#', '~', '\x7b', '\x7d']

/-- Scanner mode for one POSIX shell word: outside quotes, inside a
single-quoted segment, or right after an unquoted backslash. -/
inductive ShMode where
  | word | single | escaped

/-- Evaluate a POSIX shell word: what the shell passes to the command as
one argument.  Inside single quotes everything up to the closing quote is
literal; outside quotes a backslash escapes the next character and
ordinary characters stand for themselves; an unquoted special character
(or an unterminated quote/escape) means the input is not one plain word,
returning `none`. -/
def evalShell (mode : ShMode) : List Char → Option (List Char)
  | [] => match mode with | .word => some [] | _ => none
  | c :: rest =>
    match mode with
    | .escaped => (evalShell .word rest).map (fun w => c :: w)
    | .single =>
      if c = '\'' then evalShell .word rest
      else (evalShell .single rest).map (fun w => c :: w)
    | .word =>
      if c = '\'' then evalShell .single rest
      else if c = '\\' then evalShell .escaped rest
      else if shellSpecial c then none
      else (evalShell .word rest).map (fun w => c :: w)

/-- A whole word, starting outside quotes. -/
def evalShellWord (s : List Char) : Option (List Char) :=
  evalShell .word s

/-! ## Provider command lines

`src/utils/shell.ts` lines 489-536 (`buildClaudeCommand`).  The command is
assembled as a list of parts joined with spaces; `--resume sessionId` is
spliced in at index 3 when a session id is present.  The MCP config path
(`createSessionMcpConfig`) is a freshly generated temp-file path; it is a
parameter here since its construction is time/filesystem dependent. -/

inductive PermissionMode where
  | auto | plan | approve
deriving DecidableEq

inductive ClaudeModel where
  | opus | sonnet | haiku
deriving DecidableEq

inductive Provider where
  | claude | codex
deriving DecidableEq

def ClaudeModel.flag : ClaudeModel → List Char
  | .opus => "opus".toList
  | .sonnet => "sonnet".toList
  | .haiku => "haiku".toList

def buildClaudeCommandParts (workingDir prompt : List Char)
    (sessionId : Option (List Char)) (mode : PermissionMode)
    (model : ClaudeModel) (mcpConfigPath : List Char) : List (List Char) :=
  let escapedPrompt := escapeShellString prompt
  let base := ["cd ".toList ++ workingDir, "&&".toList, "claude".toList,
    "--output-format".toList, "stream-json".toList, "--model".toList,
    model.flag, "-p".toList, escapedPrompt, "--verbose".toList]
  let withMode := base ++
    (match mode with
     | .plan =>
       ["--permission-mode".toList, "plan".toList,
        "--mcp-config".toList, mcpConfigPath,
        "--permission-prompt-tool".toList,
        "mcp__discord-permissions__approve_tool".toList,
        "--allowedTools".toList, "mcp__discord-permissions".toList]
     | .approve =>
       ["--mcp-config".toList, mcpConfigPath,
        "--permission-prompt-tool".toList,
        "mcp__discord-permissions__approve_tool".toList,
        "--allowedTools".toList, "mcp__discord-permissions".toList]
     | .auto => ["--dangerously-skip-permissions".toList])
  match sessionId with
  | some sid => withMode.take 3 ++ ["--resume".toList, sid] ++ withMode.drop 3
  | none => withMode

/-! ## The `ClaudeManager` channel registry

State of one `ClaudeManager` instance (`manager.ts` lines 20-39), with the
database-backed tables that the claims touch (`channel_sessions`,
`channel_providers`).  Discord message objects are opaque numeric handles;
a child process is a pid plus whether a stdin pipe exists (`stdio` pipe
vs `ignore`). -/

structure ProcHandle where
  pid : Nat
  hasStdin : Bool
deriving DecidableEq

structure ChannelProcessEntry where
  process : Option ProcHandle
  sessionId : Option String
  discordMessage : Nat
deriving DecidableEq

/-- One entry of the per-channel tool-call map: the Discord message the
tool-call embed was sent as (whose current embed description is
`description`) and the tool-use id. -/
structure ToolCallRecord where
  message : Nat
  toolId : String
  description : List Char
deriving DecidableEq

structure ManagerState where
  baseFolder : List Char
  channelMessages : List (String × Nat)
  channelToolCalls : List (String × List (String × ToolCallRecord))
  channelNames : List (String × List Char)
  channelProcesses : List (String × ChannelProcessEntry)
  dbSessions : List (String × String)
  dbProviders : List (String × Provider)

/-- Side effects of the manager, reified. -/
inductive Effect where
  | kill (pid : Nat)
  | send (channelId : String) (content : List Char)
  | edit (message : Nat) (content : List Char)
  | stdinWrite (pid : Nat) (line : List Char)
deriving DecidableEq

/-- `hasActiveProcess` (manager.ts 41-43): the channel has a registry
entry, whether or not the process handle is already attached. -/
def hasActiveProcess (s : ManagerState) (channelId : String) : Bool :=
  (aget s.channelProcesses channelId).isSome

/-- `killActiveProcess` (manager.ts 45-51): SIGTERM the entry's process,
if an entry with a non-null process exists; no registry change. -/
def killActiveProcess (s : ManagerState) (channelId : String) : List Effect :=
  match aget s.channelProcesses channelId with
  | some entry =>
    match entry.process with
    | some h => [Effect.kill h.pid]
    | none => []
  | none => []

/-- `clearSession` (manager.ts 53-60): kill the active process, delete the
persisted session row, and drop every in-memory per-channel map entry. -/
def clearSession (s : ManagerState) (channelId : String) :
    ManagerState × List Effect :=
  ({ baseFolder := s.baseFolder,
     channelMessages := adel s.channelMessages channelId,
     channelToolCalls := adel s.channelToolCalls channelId,
     channelNames := adel s.channelNames channelId,
     channelProcesses := adel s.channelProcesses channelId,
     dbSessions := adel s.dbSessions channelId,
     dbProviders := s.dbProviders },
   killActiveProcess s channelId)

/-- `setProvider` (manager.ts 78-81): persist the provider, then clear the
whole session. -/
def setProvider (s : ManagerState) (channelId : String) (p : Provider) :
    ManagerState × List Effect :=
  clearSession { s with dbProviders := aset s.dbProviders channelId p } channelId

def getProvider (s : ManagerState) (channelId : String) : Provider :=
  (aget s.dbProviders channelId).getD Provider.claude

/-- `getSessionId` (manager.ts 220-222): read the persisted session id. -/
def getSessionId (s : ManagerState) (channelId : String) : Option String :=
  aget s.dbSessions channelId

/-- `reserveChannel` (manager.ts 198-218): SIGTERM any existing process
for the channel, then immediately install a placeholder entry whose
process handle is null. -/
def reserveChannel (s : ManagerState) (channelId : String)
    (sessionId : Option String) (discordMessage : Nat) :
    ManagerState × List Effect :=
  let kills :=
    match aget s.channelProcesses channelId with
    | some entry =>
      match entry.process with
      | some h => [Effect.kill h.pid]
      | none => []
    | none => []
  let placeholder : ChannelProcessEntry := ⟨none, sessionId, discordMessage⟩
  ({ s with channelProcesses :=
      (aset s.channelProcesses channelId placeholder) }, kills)

/-! ## Run exit paths (claim C3)

The three places `runClaudeCode` removes the channel's process entry:
the `close` handler (manager.ts 353-371), the `error` handler (395-412)
and the terminal-result branch of the stdout loop (332-337, whose `then`
continuation runs `handleResultMessage`, 934-988, then kills the process
and deletes the entry).  The five-minute timer (`clearTimeout`) is
real-time and not part of the state model. -/

/-- The `close` handler: delete the entry; on a non-zero, non-null exit
code, send a failure embed if the channel is known. -/
def onProcessClose (s : ManagerState) (channelId : String)
    (code : Option Int) : ManagerState × List Effect :=
  ({ s with channelProcesses := adel s.channelProcesses channelId },
   match code with
   | some c =>
     if c ≠ 0 then
       match aget s.channelMessages channelId with
       | some _ =>
         [Effect.send channelId
           ("Process exited with code: ".toList ++ (toString c).toList)]
       | none => []
     else []
   | none => [])

/-- The `error` handler: delete the entry; send a process-error embed if
the channel is known. -/
def onProcessError (s : ManagerState) (channelId : String)
    (errMessage : List Char) : ManagerState × List Effect :=
  ({ s with channelProcesses := adel s.channelProcesses channelId },
   match aget s.channelMessages channelId with
   | some _ => [Effect.send channelId errMessage]
   | none => [])

/-- The `result` branch: `handleResultMessage` persists the session id and
sends the final embed (its text, which involves float cost formatting, is
abstracted as `embedText`), then the continuation kills the process and
deletes the entry. -/
def onResultBranch (s : ManagerState) (channelId : String) (pid : Nat)
    (sessionId : String) (embedText : List Char) :
    ManagerState × List Effect :=
  let s1 := { s with dbSessions := aset s.dbSessions channelId sessionId }
  let sendEffs :=
    match aget s1.channelMessages channelId with
    | some _ => [Effect.send channelId embedText]
    | none => []
  ({ s1 with channelProcesses := adel s1.channelProcesses channelId },
   sendEffs ++ [Effect.kill pid])

/-! ## Tool-result handling (claim C5) -/

/-- One `tool_result` block of a streamed `user` message. -/
structure ToolResultBlock where
  tool_use_id : String
  content : List Char
  is_error : Bool
deriving DecidableEq

/-- `handleToolResultMessage` (manager.ts 890-932): for each result block,
look its id up in the channel's tool-call map; on a hit, edit the recorded
message (⏳ becomes ✅, or ❌ with the leading two characters replaced on
error), appending the truncated first line of the result.  A miss produces
nothing at all.  The state is unchanged. -/
def handleToolResultMessage (s : ManagerState) (channelId : String)
    (results : List ToolResultBlock) : List Effect :=
  let toolCalls := (aget s.channelToolCalls channelId).getD []
  (results.map (fun r =>
    match aget toolCalls r.tool_use_id with
    | some rec =>
      let firstLine := jsTrim (firstLineOf r.content)
      let resultText :=
        if firstLine.length > 100 then firstLine.take 100 ++ "...".toList
        else firstLine
      let originalDescription :=
        replaceFirst '⏳' [] "✅".toList rec.description
      if r.is_error then
        [Effect.edit rec.message
          ("❌ ".toList ++ originalDescription.drop 2 ++ "\n*".toList ++
            resultText ++ "*".toList)]
      else
        [Effect.edit rec.message
          (originalDescription ++ "\n*".toList ++ resultText ++ "*".toList)]
    | none => [])).flatten

/-- A completed `command_execution` item of the Codex stream. -/
structure CodexCommandItem where
  id : String
  command : List Char
  aggregated_output : List Char
  exit_code : Option Int
  status : String
deriving DecidableEq

/-- `formatCodexCommand` (manager.ts 727-736). -/
def formatCodexCommand (s : ManagerState) (channelId : String)
    (command : List Char) : List Char :=
  match aget s.channelNames channelId with
  | none => command
  | some name =>
    let basePath := s.baseFolder ++ name
    match basePath with
    | [] => command
    | b :: bs =>
      if containsSub basePath command then
        replaceAllNE b (bs ++ ['/']) "./".toList command
      else command

/-- `handleCodexCommandComplete` (manager.ts 668-695): nothing without a
known channel; with a recorded tool call, edit that message; otherwise
send a standalone embed for the completed command. -/
def handleCodexCommandComplete (s : ManagerState) (channelId : String)
    (item : CodexCommandItem) : List Effect :=
  match aget s.channelMessages channelId with
  | none => []
  | some _ =>
    let toolCalls := (aget s.channelToolCalls channelId).getD []
    let output := jsTrim item.aggregated_output
    let firstLine := firstLineOf output
    let resultText :=
      if firstLine.length > 120 then firstLine.take 120 ++ "...".toList
      else firstLine
    let failed : Bool :=
      decide (item.status = "failed") ||
        (match item.exit_code with
         | some c => decide (¬ c = 0)
         | none => false)
    let statusEmoji := if failed then "❌".toList else "✅".toList
    let tail :=
      if resultText.isEmpty then []
      else "\n*".toList ++ resultText ++ "*".toList
    match aget toolCalls item.id with
    | some rec =>
      [Effect.edit rec.message
        (replaceFirst '⏳' [] statusEmoji rec.description ++ tail)]
    | none =>
      let command := formatCodexCommand s channelId item.command
      let description :=
        if command.length > 500 then command.take 500 ++ "...".toList
        else command
      [Effect.send channelId
        (statusEmoji ++ " 🔧 **Command**\n".toList ++ "```".toList ++
          "bash\n".toList ++ description ++ "\n".toList ++ "```".toList ++
          tail)]

/-! ## Tool responses on stdin (claims C6, C7)

`sendToolResponse` (manager.ts 1216-1243) and the two interactive tool
handlers that feed it: `handleExitPlanMode` (1122-1211) and
`handleAskUserQuestion` (993-1117).  The Discord widget round trips
(`awaitMessageComponent`, `awaitMessages`) are real-time interactions;
their outcome — which button was pressed, what text was collected, or a
timeout — is the handlers' input here. -/

/-- The exact object `sendToolResponse` builds around a result payload. -/
def toolResponseJson (toolUseId : String) (result : Json) : Json :=
  Json.obj
    [("type".toList, Json.str "user".toList),
     ("message".toList, Json.obj
       [("role".toList, Json.str "user".toList),
        ("content".toList, Json.arr
          [Json.obj
            [("type".toList, Json.str "tool_result".toList),
             ("tool_use_id".toList, Json.str toolUseId.toList),
             ("content".toList, Json.str (encodeJson result)),
             ("is_error".toList, Json.bool false)]])])]

/-- The newline-terminated stdin line (`JSON.stringify(response) + "\n"`). -/
def toolResponseLine (toolUseId : String) (result : Json) : List Char :=
  encodeJson (toolResponseJson toolUseId result) ++ ['\n']

/-- `sendToolResponse`: drop the response when no process/stdin handle is
available (a logged no-op), else write the line to the process's stdin. -/
def sendToolResponse (s : ManagerState) (channelId : String)
    (toolUseId : String) (result : Json) : List Effect :=
  match aget s.channelProcesses channelId with
  | some entry =>
    match entry.process with
    | some h =>
      if h.hasStdin then
        [Effect.stdinWrite h.pid (toolResponseLine toolUseId result)]
      else []
    | none => []
  | none => []

/-- Outcome of the plan-approval widget: approve button, reject button
with the collected feedback text (the code substitutes
"Plan rejected without feedback" when none is collected), or the
five-minute timeout elapsing with no decision. -/
inductive PlanDecision where
  | approve
  | reject (feedback : List Char)
  | timeout
deriving DecidableEq

/-- The result payload `handleExitPlanMode` passes to `sendToolResponse`
on each outcome (manager.ts 1167, 1192-1195, 1206-1209). -/
def exitPlanResponsePayload : PlanDecision → Json
  | .approve => Json.obj []
  | .reject feedback =>
    Json.obj [("rejected".toList, Json.bool true),
              ("feedback".toList, Json.str feedback)]
  | .timeout =>
    Json.obj [("rejected".toList, Json.bool true),
              ("feedback".toList,
                Json.str "Review timed out - no response from user".toList)]

/-- `handleExitPlanMode`, reduced to its write-back: resolve the decision
(defaulting on timeout) and send it to the provider's stdin. -/
def handleExitPlanMode (s : ManagerState) (channelId : String)
    (toolId : String) (decision : PlanDecision) : List Effect :=
  sendToolResponse s channelId toolId (exitPlanResponsePayload decision)

/-- One question of an `AskUserQuestion` tool call. -/
structure UserQuestion where
  question : List Char
  options : List (List Char)
deriving DecidableEq

/-- Outcome of one question's widget: an option button (by index), the
"Other..." path with the collected free text (the code substitutes
"No response" when none is collected), or the 60-second timeout. -/
inductive QuestionOutcome where
  | picked (optionIndex : Nat)
  | other (text : List Char)
  | timeout
deriving DecidableEq

/-- The answer string recorded for one question (manager.ts 1076-1077,
1091, 1104). -/
def questionAnswer (q : UserQuestion) : QuestionOutcome → List Char
  | .picked i => q.options.getD i []
  | .other text => text
  | .timeout => "No response (timed out)".toList

/-- JavaScript object assignment `answers[key] = value`: an existing key
is updated in place, a new key is appended. -/
def recordSet : List (List Char × Json) → List Char → Json →
    List (List Char × Json)
  | [], k, v => [(k, v)]
  | p :: m, k, v => if p.1 = k then (k, v) :: m else p :: recordSet m k v

/-- The `answers` record accumulated over the questions in order. -/
def buildAnswers (qs : List (UserQuestion × QuestionOutcome)) :
    List (List Char × Json) :=
  qs.foldl
    (fun acc qo =>
      recordSet acc qo.1.question (Json.str (questionAnswer qo.1 qo.2))) []

/-- `handleAskUserQuestion`, reduced to its write-back: resolve every
question (defaulting on timeout) and send `\x7b answers \x7d` to stdin.
With no questions at all the code short-circuits to the same empty-answers
payload (manager.ts 999-1003). -/
def handleAskUserQuestion (s : ManagerState) (channelId : String)
    (toolId : String) (qs : List (UserQuestion × QuestionOutcome)) :
    List Effect :=
  sendToolResponse s channelId toolId
    (Json.obj [("answers".toList, Json.obj (buildAnswers qs))])

/-! ## Claude stream line classification (claim C8)

The stdout line loop of `runClaudeCode` (manager.ts 321-350): skip blank
lines, `JSON.parse` each remaining line inside a `try`, dispatch on
`parsed.type`; a parse failure (or a throwing property access on a
missing `message` field) is caught, logged, and the loop continues with
the next line.  The only synchronous state change in the loop body is the
`db.setSession` call of the `system` branch (343-344); the dispatched
handlers run as detached promises. -/

def jfield : Json → List Char → Option Json
  | .obj fs, k => (fs.find? (fun p => p.1 = k)).map (fun p => p.2)
  | _, _ => none

/-- JavaScript truthiness of a (JSON) value. -/
def jsTruthy : Json → Bool
  | .str s => ¬ s.isEmpty
  | .bool b => b
  | .arr _ => true
  | .obj _ => true

inductive ClaudeLineOutcome where
  | blank
  | malformed
  | assistantMsg (j : Json)
  | toolResultMsg (j : Json)
  | resultMsg (j : Json)
  | systemMsg (j : Json)
  | unhandled (j : Json)

/-- Classify one framed line as the loop body does.  `malformed` is the
caught-and-logged branch: invalid JSON, or a `message`-field access that
throws. -/
def classifyClaudeLine (line : List Char) : ClaudeLineOutcome :=
  if line.all isJsWhitespace then .blank
  else
    match parseJson line with
    | none => .malformed
    | some j =>
      match jfield j "type".toList with
      | some (Json.str t) =>
        if t = "assistant".toList then
          match jfield j "message".toList with
          | none => .malformed
          | some m =>
            match jfield m "content".toList with
            | some c => if jsTruthy c then .assistantMsg j else .unhandled j
            | none => .unhandled j
        else if t = "user".toList then
          match jfield j "message".toList with
          | none => .malformed
          | some m =>
            match jfield m "content".toList with
            | some c => if jsTruthy c then .toolResultMsg j else .unhandled j
            | none => .unhandled j
        else if t = "result".toList then .resultMsg j
        else if t = "system".toList then .systemMsg j
        else .unhandled j
      | _ => .unhandled j

/-- One loop iteration: classify, and apply the `system` branch's
synchronous `db.setSession` when a string session id is present. -/
def stepClaudeLine (s : ManagerState) (channelId : String)
    (line : List Char) : ManagerState × ClaudeLineOutcome :=
  match classifyClaudeLine line with
  | .systemMsg j =>
    match jfield j "session_id".toList with
    | some (Json.str sid) =>
      ({ s with dbSessions := aset s.dbSessions channelId (String.mk sid) },
       .systemMsg j)
    | _ => (s, .systemMsg j)
  | o => (s, o)

/-- Process a list of framed lines in order, threading the state. -/
def processClaudeLines (s : ManagerState) (channelId : String) :
    List (List Char) → ManagerState × List ClaudeLineOutcome
  | [] => (s, [])
  | line :: rest =>
    let r := stepClaudeLine s channelId line
    let r2 := processClaudeLines r.1 channelId rest
    (r2.1, r.2 :: r2.2)

/-! ## Per-channel process lifecycle traces (claim C4)

One conversation channel's view of the registry and of the OS processes
spawned for it.  The message-intake guard is `handleMessage`
(client.ts 141-158: author checks, then the `hasActiveProcess`
check-and-drop, then channel/content checks); an accepted message runs
`reserveChannel` and the synchronous prefix of `runClaudeCode` up to and
including the process-handle attach, with no interleaving point between
them (single-threaded event loop, no `await` in between).  `stop` is the
`/stop` command (commands.ts 89-99), `clear` the `/clear` command or an
error cleanup (`clearSession`), `procExit` the asynchronous `close`/
`error` callback of a spawned process, which can be delivered at any
later point and deletes the channel's registry entry unconditionally
(manager.ts 353-357, 395-400).

`live` holds the pids of processes that were spawned and have neither
been SIGTERMed nor exited — "non-terminated" in the generous reading in
which a kill terminates.  `pendingClose` holds spawned processes whose
`close` callback has not fired yet. -/

structure ChannelTraceState where
  entry : Option Nat
  live : List Nat
  pendingClose : List Nat
  nextPid : Nat
deriving DecidableEq

inductive ChanEvent where
  | inbound
  | stop
  | clear
  | procExit (pid : Nat)
deriving DecidableEq

def chanInit : ChannelTraceState := ⟨none, [], [], 0⟩

def stepChannel (st : ChannelTraceState) : ChanEvent → ChannelTraceState
  | .inbound =>
    match st.entry with
    | some _ => st
    | none =>
      { entry := some st.nextPid,
        live := st.nextPid :: st.live,
        pendingClose := st.nextPid :: st.pendingClose,
        nextPid := st.nextPid + 1 }
  | .stop =>
    match st.entry with
    | some p => { st with live := st.live.erase p }
    | none => st
  | .clear =>
    match st.entry with
    | some p => { st with live := st.live.erase p, entry := none }
    | none => st
  | .procExit p =>
    if p ∈ st.pendingClose then
      { entry := none,
        live := st.live.erase p,
        pendingClose := st.pendingClose.erase p,
        nextPid := st.nextPid }
    else st

def runChannelEvents (st : ChannelTraceState) (es : List ChanEvent) :
    ChannelTraceState :=
  es.foldl stepChannel st

/-- States reachable from the idle channel. -/
inductive ChannelReachable : ChannelTraceState → Prop where
  | init : ChannelReachable chanInit
  | step (st : ChannelTraceState) (e : ChanEvent) :
      ChannelReachable st → ChannelReachable (stepChannel st e)

/-- The prompt-close discipline: a kill's `close` callback is processed
before anything else happens on the channel, and a spontaneous exit is
the current process's.  Each constructor is a composition of `stepChannel`
steps, so every prompt-close-reachable state is reachable. -/
inductive PromptCloseEvent where
  | inbound
  | stopExit
  | clearExit
  | exitCurrent
deriving DecidableEq

def stepChannelPrompt (st : ChannelTraceState) :
    PromptCloseEvent → ChannelTraceState
  | .inbound => stepChannel st .inbound
  | .stopExit =>
    match st.entry with
    | some p => stepChannel (stepChannel st .stop) (.procExit p)
    | none => stepChannel st .stop
  | .clearExit =>
    match st.entry with
    | some p => stepChannel (stepChannel st .clear) (.procExit p)
    | none => stepChannel st .clear
  | .exitCurrent =>
    match st.entry with
    | some p => stepChannel st (.procExit p)
    | none => st

inductive PromptCloseReachable : ChannelTraceState → Prop where
  | init : PromptCloseReachable chanInit
  | step (st : ChannelTraceState) (e : PromptCloseEvent) :
      PromptCloseReachable st → PromptCloseReachable (stepChannelPrompt st e)

/-! ## Message-intake gate (claim C4, client.ts 141-176) -/

inductive IntakeResult where
  | blockedBot
  | blockedUser
  | dropped
  | blockedGeneral
  | blockedSlash
  | proceeding
deriving DecidableEq

/-- The guard chain of `handleMessage`, in source order: bot author,
allowed user, the `hasActiveProcess` check-and-drop, the `general`
channel, slash-command content.  `proceeding` means the handler goes on
to reserve and spawn. -/
def handleMessageGate (s : ManagerState) (channelId : String)
    (authorBot : Bool) (authorId allowedUserId : String)
    (channelName : List Char) (content : List Char) : IntakeResult :=
  if authorBot then .blockedBot
  else if ¬ authorId = allowedUserId then .blockedUser
  else if hasActiveProcess s channelId then .dropped
  else if channelName = "general".toList then .blockedGeneral
  else if content.head? = some '/' then .blockedSlash
  else .proceeding

/-! ## Theorems: library lemmas for the embedding -/

theorem aget_adel {α : Type} (m : List (String × α)) (k : String) :
    aget (adel m k) k = none := by
  induction m with
  | nil => rfl
  | cons p m ih =>
    by_cases hp : p.1 = k
    · simpa [adel, hp] using ih
    · simpa [adel, aget, hp] using ih

theorem aget_adel_ne {α : Type} (m : List (String × α)) (k k' : String)
    (h : k ≠ k') : aget (adel m k) k' = aget m k' := by
  induction m with
  | nil => rfl
  | cons p m ih =>
    by_cases hp : p.1 = k
    · simp [adel, aget, hp, h, ih]
    · simp only [adel, hp, if_false, aget]
      by_cases hk' : p.1 = k' <;> simp [hk', ih]

theorem aget_aset {α : Type} (m : List (String × α)) (k : String) (v : α) :
    aget (aset m k v) k = some v := by
  simp [aget, aset]

theorem aget_aset_ne {α : Type} (m : List (String × α)) (k k' : String)
    (v : α) (h : k ≠ k') : aget (aset m k v) k' = aget m k' := by
  simp only [aget, aset, h, if_false]
  exact aget_adel_ne m k k' h

theorem splitCompleteLines_cons_nl (rest : List Char) :
    splitCompleteLines ('\n' :: rest) =
      ([] :: (splitCompleteLines rest).1, (splitCompleteLines rest).2) := by
  simp [splitCompleteLines]

theorem splitCompleteLines_cons_ne (c : Char) (rest : List Char)
    (hc : c ≠ '\n') :
    splitCompleteLines (c :: rest) = consFirst c (splitCompleteLines rest) := by
  simp [splitCompleteLines, hc]

theorem splitCompleteLines_append (a b : List Char) :
    splitCompleteLines (a ++ b) =
      ((splitCompleteLines a).1 ++
        (splitCompleteLines ((splitCompleteLines a).2 ++ b)).1,
       (splitCompleteLines ((splitCompleteLines a).2 ++ b)).2) := by
  induction a with
  | nil => simp [splitCompleteLines]
  | cons c rest ih =>
    by_cases hc : c = '\n'
    · subst hc
      rw [List.cons_append, splitCompleteLines_cons_nl,
        splitCompleteLines_cons_nl, ih]
      simp
    · rw [List.cons_append, splitCompleteLines_cons_ne _ _ hc,
        splitCompleteLines_cons_ne _ _ hc, ih]
      cases hr : splitCompleteLines rest with
      | mk ls buf =>
        cases ls with
        | nil =>
          have hb : (c :: buf) ++ b = c :: (buf ++ b) := rfl
          simp only [consFirst, hb, splitCompleteLines_cons_ne _ _ hc,
            List.nil_append, Prod.mk.eta]
        | cons l ls' => simp [consFirst]

/-- The trailing partial line never contains a newline. -/
theorem splitCompleteLines_buf_no_newline (s : List Char) :
    '\n' ∉ (splitCompleteLines s).2 := by
  induction s with
  | nil => simp [splitCompleteLines]
  | cons c rest ih =>
    by_cases hc : c = '\n'
    · subst hc
      rw [splitCompleteLines_cons_nl]
      exact ih
    · rw [splitCompleteLines_cons_ne _ _ hc]
      cases hr : splitCompleteLines rest with
      | mk ls buf =>
        rw [hr] at ih
        cases ls with
        | nil =>
          simp only [consFirst, List.mem_cons, not_or]
          exact ⟨fun h => hc h.symm, ih⟩
        | cons l ls' => exact ih

/-- A stream with no newline is a pure partial line. -/
theorem splitCompleteLines_of_no_newline (s : List Char) (h : '\n' ∉ s) :
    splitCompleteLines s = ([], s) := by
  induction s with
  | nil => simp [splitCompleteLines]
  | cons c rest ih =>
    have hc : c ≠ '\n' := by
      rintro rfl
      exact h (List.mem_cons_self _ _)
    have hrest : '\n' ∉ rest := fun hh => h (List.mem_cons_of_mem c hh)
    rw [splitCompleteLines_cons_ne _ _ hc, ih hrest]
    simp [consFirst]

/-- Feeding any chunk decomposition equals one pass over the concatenation,
provided the starting buffer is a partial line. -/
theorem feedChunks_eq_splitCompleteLines (cs : List (List Char))
    (buf : List Char) (hbuf : '\n' ∉ buf) :
    feedChunks buf cs = splitCompleteLines (buf ++ cs.flatten) := by
  induction cs generalizing buf with
  | nil =>
    simp [feedChunks, splitCompleteLines_of_no_newline buf hbuf]
  | cons ch rest ih =>
    have h2 := splitCompleteLines_buf_no_newline (buf ++ ch)
    rw [feedChunks, ih _ h2]
    have := splitCompleteLines_append (buf ++ ch) rest.flatten
    simp only [List.flatten_cons, ← List.append_assoc]
    rw [this]

/-! ## JSON round trip -/

theorem decodeHexDigit_hexDigitChar (n : Nat) (h : n < 16) :
    decodeHexDigit (hexDigitChar n) = some n := by
  interval_cases n <;> decide

theorem decodeStringLit_u (a b : Char) (na nb : Nat) (t : List Char)
    (ha : decodeHexDigit a = some na) (hb : decodeHexDigit b = some nb) :
    decodeStringLit ('\\' :: 'u' :: '0' :: '0' :: a :: b :: t) =
      (decodeStringLit t).map
        (fun p => (Char.ofNat (((0 * 16 + 0) * 16 + na) * 16 + nb) :: p.1, p.2)) := by
  rw [decodeStringLit.eq_def]
  have h0 : decodeHexDigit '0' = some 0 := by decide
  simp only [ha, hb, h0]
  rfl

theorem decodeStringLit_encodeChar (c : Char) (t : List Char) :
    decodeStringLit (encodeChar c ++ t) =
      (decodeStringLit t).map (fun p => (c :: p.1, p.2)) := by
  rw [encodeChar]
  split_ifs with h1 h2 h3 h4 h5 h6 h7 h8
  · subst h1; rw [decodeStringLit.eq_def]; rfl
  · subst h2; rw [decodeStringLit.eq_def]; rfl
  · subst h3; rw [decodeStringLit.eq_def]; rfl
  · subst h4; rw [decodeStringLit.eq_def]; rfl
  · subst h5; rw [decodeStringLit.eq_def]; rfl
  · subst h6; rw [decodeStringLit.eq_def]; rfl
  · subst h7; rw [decodeStringLit.eq_def]; rfl
  · -- control character, encoded as \u00xx
    have hdiv : c.toNat / 16 < 16 := by omega
    have hmod : c.toNat % 16 < 16 := by omega
    simp only [List.cons_append, List.nil_append]
    rw [decodeStringLit_u _ _ _ _ t (decodeHexDigit_hexDigitChar _ hdiv)
      (decodeHexDigit_hexDigitChar _ hmod)]
    have harith : ((0 * 16 + 0) * 16 + c.toNat / 16) * 16 + c.toNat % 16
        = c.toNat := by omega
    simp only [harith, Char.ofNat_toNat]
  · -- plain character: c is not a quote and not a backslash
    simp only [List.cons_append, List.nil_append]
    rw [decodeStringLit.eq_def]
    simp only [h1, h2, if_false]

theorem decodeStringLit_encodeStringLit (s rest : List Char) :
    decodeStringLit (encodeStringLit s ++ '"' :: rest) = some (s, rest) := by
  induction s with
  | nil =>
    show decodeStringLit ([] ++ '"' :: rest) = some ([], rest)
    rw [List.nil_append, decodeStringLit.eq_def]
    rfl
  | cons c s ih =>
    rw [encodeStringLit, List.append_assoc, decodeStringLit_encodeChar, ih]
    rfl

theorem encodeJson_head (x : Json) :
    ∃ c t, encodeJson x = c :: t ∧ ¬ c = ']' ∧ ¬ c = '\x7d' := by
  cases x with
  | str s =>
    exact ⟨'"', encodeStringLit s ++ ['"'], by simp [encodeJson, encodeStr],
      by decide, by decide⟩
  | bool b =>
    cases b with
    | true => exact ⟨'t', ['r', 'u', 'e'], by simp [encodeJson], by decide, by decide⟩
    | false => exact ⟨'f', ['a', 'l', 's', 'e'], by simp [encodeJson], by decide, by decide⟩
  | arr xs =>
    exact ⟨'[', encodeElems xs ++ [']'], by simp [encodeJson], by decide, by decide⟩
  | obj fs =>
    exact ⟨'\x7b', encodeFields fs ++ ['\x7d'], by simp [encodeJson], by decide, by decide⟩

theorem fuelOfJson_pos (j : Json) : 1 ≤ fuelOfJson j := by
  cases j <;> simp [fuelOfJson]

theorem parseJsonVal_arr_cons (fuel : Nat) (c : Char) (t r rest : List Char)
    (x : Json) (xs : List Json) (hc : ¬ c = ']')
    (hx : parseJsonVal fuel (c :: t) = some (x, r))
    (hxs : parseElemsTail fuel r = some (xs, rest)) :
    parseJsonVal (fuel + 1) ('[' :: c :: t) = some (Json.arr (x :: xs), rest) := by
  rw [parseJsonVal]
  split
  · rename_i heq; rw [hx] at heq; exact absurd heq (by simp)
  · rename_i y r2 heq
    rw [hx] at heq
    injection heq with h
    injection h with h1 h2
    subst h1; subst h2
    rw [hxs]
  · intro r' hr'
    injection hr' with h1 _
    exact absurd h1 hc

theorem parseJsonVal_obj_cons (fuel : Nat) (c : Char) (t r rest : List Char)
    (f : List Char × Json) (fs : List (List Char × Json)) (hc : ¬ c = '\x7d')
    (hf : parseField fuel (c :: t) = some (f, r))
    (hfs : parseFieldsTail fuel r = some (fs, rest)) :
    parseJsonVal (fuel + 1) ('\x7b' :: c :: t) = some (Json.obj (f :: fs), rest) := by
  rw [parseJsonVal]
  split
  · rename_i heq; rw [hf] at heq; exact absurd heq (by simp)
  · rename_i g r2 heq
    rw [hf] at heq
    injection heq with h
    injection h with h1 h2
    subst h1; subst h2
    rw [hfs]
  · intro r' hr'
    injection hr' with h1 _
    exact absurd h1 hc

theorem parse_encode_aux (fuel : Nat) :
    (∀ j rest, fuelOfJson j ≤ fuel →
      parseJsonVal fuel (encodeJson j ++ rest) = some (j, rest)) ∧
    (∀ xs rest, fuelOfElems xs ≤ fuel →
      parseElemsTail fuel (encodeElemsSep xs ++ ']' :: rest) = some (xs, rest)) ∧
    (∀ fs rest, fuelOfFields fs ≤ fuel →
      parseFieldsTail fuel (encodeFieldsSep fs ++ '\x7d' :: rest) = some (fs, rest)) ∧
    (∀ k v rest, fuelOfJson v + 1 ≤ fuel →
      parseField fuel (encodeStr k ++ ':' :: (encodeJson v ++ rest)) =
        some ((k, v), rest)) := by
  induction fuel with
  | zero =>
    refine ⟨?_, ?_, ?_, ?_⟩
    · intro j rest h
      exact absurd h (by have := fuelOfJson_pos j; omega)
    · intro xs rest h
      cases xs with
      | nil => simp [encodeElemsSep, parseElemsTail]
      | cons x xs =>
        exfalso
        simp only [fuelOfElems] at h
        omega
    · intro fs rest h
      cases fs with
      | nil => simp [encodeFieldsSep, parseFieldsTail]
      | cons f fs =>
        exfalso
        simp only [fuelOfFields] at h
        omega
    · intro k v rest h
      exact absurd h (by have := fuelOfJson_pos v; omega)
  | succ fuel ih =>
    obtain ⟨ih1, ih2, ih3, ih4⟩ := ih
    have P1 : ∀ j rest, fuelOfJson j ≤ fuel + 1 →
        parseJsonVal (fuel + 1) (encodeJson j ++ rest) = some (j, rest) := by
      intro j rest h
      cases j with
      | str s =>
        have hshape : encodeJson (.str s) ++ rest =
            '"' :: (encodeStringLit s ++ '"' :: rest) := by
          simp [encodeJson, encodeStr]
        rw [hshape, parseJsonVal, decodeStringLit_encodeStringLit]
        rfl
      | bool b =>
        cases b with
        | true =>
          have hshape : encodeJson (.bool true) ++ rest =
              't' :: 'r' :: 'u' :: 'e' :: rest := by simp [encodeJson]
          rw [hshape, parseJsonVal]
        | false =>
          have hshape : encodeJson (.bool false) ++ rest =
              'f' :: 'a' :: 'l' :: 's' :: 'e' :: rest := by simp [encodeJson]
          rw [hshape, parseJsonVal]
      | arr xs =>
        cases xs with
        | nil =>
          have hshape : encodeJson (.arr []) ++ rest = '[' :: ']' :: rest := by
            simp [encodeJson, encodeElems]
          rw [hshape]
          simp [parseJsonVal]
        | cons x xs =>
          have hshape : encodeJson (.arr (x :: xs)) ++ rest =
              '[' :: (encodeJson x ++ (encodeElemsSep xs ++ ']' :: rest)) := by
            simp [encodeJson, encodeElems]
          have hfx : fuelOfJson x ≤ fuel ∧ fuelOfElems xs ≤ fuel := by
            simp only [fuelOfJson, fuelOfElems] at h
            omega
          have hx := ih1 x (encodeElemsSep xs ++ ']' :: rest) hfx.1
          have hxs := ih2 xs rest hfx.2
          obtain ⟨c, t, hct, hc1, _⟩ := encodeJson_head x
          rw [hct] at hx
          rw [hshape, hct]
          simp only [List.cons_append] at hx ⊢
          exact parseJsonVal_arr_cons fuel c _ _ rest x xs hc1 hx hxs
      | obj fs =>
        cases fs with
        | nil =>
          have hshape : encodeJson (.obj []) ++ rest = '\x7b' :: '\x7d' :: rest := by
            simp [encodeJson, encodeFields]
          rw [hshape]
          simp [parseJsonVal]
        | cons f fs =>
          have hshape : encodeJson (.obj (f :: fs)) ++ rest =
              '\x7b' :: (encodeStr f.1 ++ ':' ::
                (encodeJson f.2 ++ (encodeFieldsSep fs ++ '\x7d' :: rest))) := by
            simp [encodeJson, encodeFields]
          have hfx : fuelOfJson f.2 + 1 ≤ fuel ∧ fuelOfFields fs ≤ fuel := by
            simp only [fuelOfJson, fuelOfFields] at h
            omega
          have hf := ih4 f.1 f.2 (encodeFieldsSep fs ++ '\x7d' :: rest) hfx.1
          have hfs := ih3 fs rest hfx.2
          rw [hshape]
          have hstr : encodeStr f.1 ++ ':' ::
              (encodeJson f.2 ++ (encodeFieldsSep fs ++ '\x7d' :: rest)) =
              '"' :: (encodeStringLit f.1 ++ '"' :: ':' ::
                (encodeJson f.2 ++ (encodeFieldsSep fs ++ '\x7d' :: rest))) := by
            simp [encodeStr]
          rw [hstr] at hf ⊢
          exact parseJsonVal_obj_cons fuel '"' _ _ rest f fs (by decide) hf hfs
    refine ⟨P1, ?_, ?_, ?_⟩
    · intro xs rest h
      cases xs with
      | nil => simp [encodeElemsSep, parseElemsTail]
      | cons x xs =>
        have hfx : fuelOfJson x ≤ fuel ∧ fuelOfElems xs ≤ fuel := by
          simp only [fuelOfElems] at h
          omega
        have hx := ih1 x (encodeElemsSep xs ++ ']' :: rest) hfx.1
        have hxs := ih2 xs rest hfx.2
        have hshape : encodeElemsSep (x :: xs) ++ ']' :: rest =
            ',' :: (encodeJson x ++ (encodeElemsSep xs ++ ']' :: rest)) := by
          simp [encodeElemsSep]
        rw [hshape, parseElemsTail, hx]
        show (parseElemsTail fuel (encodeElemsSep xs ++ ']' :: rest)).map
            (fun p => (x :: p.1, p.2)) = some (x :: xs, rest)
        rw [hxs]
        rfl
    · intro fs rest h
      cases fs with
      | nil => simp [encodeFieldsSep, parseFieldsTail]
      | cons f fs =>
        have hfx : fuelOfJson f.2 + 1 ≤ fuel ∧ fuelOfFields fs ≤ fuel := by
          simp only [fuelOfFields] at h
          omega
        have hf := ih4 f.1 f.2 (encodeFieldsSep fs ++ '\x7d' :: rest) hfx.1
        have hfs := ih3 fs rest hfx.2
        have hshape : encodeFieldsSep (f :: fs) ++ '\x7d' :: rest =
            ',' :: (encodeStr f.1 ++ ':' ::
              (encodeJson f.2 ++ (encodeFieldsSep fs ++ '\x7d' :: rest))) := by
          simp [encodeFieldsSep]
        rw [hshape, parseFieldsTail, hf]
        show (parseFieldsTail fuel (encodeFieldsSep fs ++ '\x7d' :: rest)).map
            (fun p => ((f.1, f.2) :: p.1, p.2)) = some (f :: fs, rest)
        rw [hfs]
        rfl
    · intro k v rest h
      have hv := ih1 v rest (by omega)
      have hshape : encodeStr k ++ ':' :: (encodeJson v ++ rest) =
          '"' :: (encodeStringLit k ++ '"' :: ':' :: (encodeJson v ++ rest)) := by
        simp [encodeStr]
      rw [hshape, parseField, decodeStringLit_encodeStringLit]
      show (parseJsonVal fuel (encodeJson v ++ rest)).map
          (fun p => ((k, p.1), p.2)) = some ((k, v), rest)
      rw [hv]
      rfl

mutual

theorem fuelOfJson_le_length : ∀ j : Json, fuelOfJson j ≤ (encodeJson j).length
  | .str s => by
    simp [fuelOfJson, encodeJson, encodeStr]
  | .bool b => by
    cases b <;> simp [fuelOfJson, encodeJson]
  | .arr xs => by
    have h := fuelOfElems_le_length xs
    cases xs with
    | nil => simp [fuelOfJson, fuelOfElems, encodeJson, encodeElems]
    | cons x x2 =>
      have hx := fuelOfJson_le_length x
      have hxs := fuelOfElems_le_length x2
      simp only [fuelOfJson, fuelOfElems, encodeJson, encodeElems,
        List.length_cons, List.length_append]
      omega
  | .obj fs => by
    cases fs with
    | nil => simp [fuelOfJson, fuelOfFields, encodeJson, encodeFields]
    | cons f f2 =>
      have hv := fuelOfJson_le_length f.2
      have hfs := fuelOfFields_le_length f2
      simp only [fuelOfJson, fuelOfFields, encodeJson, encodeFields, encodeStr,
        List.length_cons, List.length_append]
      omega

theorem fuelOfElems_le_length : ∀ xs : List Json,
    fuelOfElems xs ≤ (encodeElemsSep xs).length
  | [] => by simp [fuelOfElems, encodeElemsSep]
  | x :: xs => by
    have hx := fuelOfJson_le_length x
    have hxs := fuelOfElems_le_length xs
    simp only [fuelOfElems, encodeElemsSep, List.length_cons, List.length_append]
    omega

theorem fuelOfFields_le_length : ∀ fs : List (List Char × Json),
    fuelOfFields fs ≤ (encodeFieldsSep fs).length
  | [] => by simp [fuelOfFields, encodeFieldsSep]
  | f :: fs => by
    have hv := fuelOfJson_le_length f.2
    have hfs := fuelOfFields_le_length fs
    simp only [fuelOfFields, encodeFieldsSep, encodeStr, List.length_cons,
      List.length_append]
    omega

end

/-- Parsing back what `JSON.stringify` produced recovers the value. -/
theorem parseJson_encodeJson (j : Json) : parseJson (encodeJson j) = some j := by
  have h1 := (parse_encode_aux ((encodeJson j).length + 1)).1 j []
    (le_trans (fuelOfJson_le_length j) (by omega))
  rw [List.append_nil] at h1
  rw [parseJson, h1]

/-! ## Claims C1, C3, C10 -/

theorem filter_adel_nil {α : Type} (m : List (String × α)) (k : String) :
    (adel m k).filter (fun p => p.1 = k) = [] := by
  induction m with
  | nil => rfl
  | cons p m ih =>
    by_cases hp : p.1 = k
    · simpa [adel, hp] using ih
    · simpa [adel, List.filter_cons, hp] using ih

/-- C1: reserving a channel twice in quick succession leaves exactly one
per-channel entry — the second placeholder, with a null process handle —
and sends exactly one SIGTERM, to the pre-existing process, and that only
if an entry with a non-null process handle existed; the second
reservation observes the channel as reserved (`hasActiveProcess`) and
kills nothing. -/
theorem reserve_twice_single_kill (s : ManagerState) (channelId : String)
    (sid1 sid2 : Option String) (dm1 dm2 : Nat) :
    aget (reserveChannel (reserveChannel s channelId sid1 dm1).1 channelId
        sid2 dm2).1.channelProcesses channelId =
      some ⟨none, sid2, dm2⟩ ∧
    ((reserveChannel (reserveChannel s channelId sid1 dm1).1 channelId
        sid2 dm2).1.channelProcesses.filter
          (fun p => p.1 = channelId)).length = 1 ∧
    hasActiveProcess (reserveChannel s channelId sid1 dm1).1 channelId = true ∧
    (∀ entry h, aget s.channelProcesses channelId = some entry →
      entry.process = some h →
      (reserveChannel s channelId sid1 dm1).2 = [Effect.kill h.pid]) ∧
    (∀ entry, aget s.channelProcesses channelId = some entry →
      entry.process = none → (reserveChannel s channelId sid1 dm1).2 = []) ∧
    (aget s.channelProcesses channelId = none →
      (reserveChannel s channelId sid1 dm1).2 = []) ∧
    (reserveChannel (reserveChannel s channelId sid1 dm1).1 channelId
        sid2 dm2).2 = [] := by
  refine ⟨?_, ?_, ?_, ?_, ?_, ?_, ?_⟩
  · simp [reserveChannel, aget_aset]
  · show ((aset (aset s.channelProcesses channelId _) channelId _).filter
        (fun p => p.1 = channelId)).length = 1
    rw [aset]
    rw [List.filter_cons]
    simp only [decide_eq_true_eq, if_pos rfl, filter_adel_nil]
    rfl
  · simp [reserveChannel, hasActiveProcess, aget_aset]
  · intro entry h hentry hproc
    simp [reserveChannel, hentry, hproc]
  · intro entry hentry hproc
    simp [reserveChannel, hentry, hproc]
  · intro hnone
    simp [reserveChannel, hnone]
  · simp [reserveChannel, aget_aset]

theorem reserve_twice_single_kill_witness :
    (reserveChannel (reserveChannel
        ⟨"/base/".toList, [], [], [],
          [("c1", ⟨some ⟨77, true⟩, some "sess", 5⟩)], [], []⟩
        "c1" (some "sess") 6).1 "c1" (some "sess") 7).2 = [] ∧
    (reserveChannel
        (⟨"/base/".toList, [], [], [],
          [("c1", ⟨some ⟨77, true⟩, some "sess", 5⟩)], [], []⟩ : ManagerState)
        "c1" (some "sess") 6).2 = [Effect.kill 77] :=
  ⟨(reserve_twice_single_kill _ "c1" (some "sess") (some "sess") 6 7).2.2.2.2.2.2,
   (reserve_twice_single_kill _ "c1" (some "sess") (some "sess") 6 7).2.2.2.1
     ⟨some ⟨77, true⟩, some "sess", 5⟩ ⟨77, true⟩ (by simp [aget]) rfl⟩

/-- C3: on each of the three exit paths of a run — process close with any
exit code, process error, and the terminal result branch — the
per-channel process entry is removed from the registry. -/
theorem exit_paths_clear_process (s : ManagerState) (channelId : String) :
    (∀ code, aget (onProcessClose s channelId code).1.channelProcesses
      channelId = none) ∧
    (∀ errMessage, aget (onProcessError s channelId
      errMessage).1.channelProcesses channelId = none) ∧
    (∀ pid sessionId embedText, aget (onResultBranch s channelId pid sessionId
      embedText).1.channelProcesses channelId = none) := by
  refine ⟨?_, ?_, ?_⟩
  · intro code
    simp [onProcessClose, aget_adel]
  · intro errMessage
    simp [onProcessError, aget_adel]
  · intro pid sessionId embedText
    simp [onResultBranch, aget_adel]

theorem no_resume_head (l : List Char) (c : Char) (hc : ¬ c = '-') :
    ¬ ("--resume".toList = c :: l) := by
  intro h
  have := congrArg List.head? h
  simp only [List.head?] at this
  rw [show "--resume".toList = '-' :: "-resume".toList from rfl] at this
  simp only [List.head?] at this
  exact hc (Option.some.inj this).symm

/-- C10: `setProvider` persists the provider and clears the whole
session: the persisted continuation id is deleted, every in-memory
per-channel map entry is removed, the active process (if any) receives
exactly the SIGTERM `killActiveProcess` would send, and the next command
line built with the now-absent session id carries no `--resume` flag. -/
theorem setProvider_clears_session (s : ManagerState) (channelId : String)
    (p : Provider) :
    getSessionId (setProvider s channelId p).1 channelId = none ∧
    aget (setProvider s channelId p).1.channelMessages channelId = none ∧
    aget (setProvider s channelId p).1.channelToolCalls channelId = none ∧
    aget (setProvider s channelId p).1.channelNames channelId = none ∧
    aget (setProvider s channelId p).1.channelProcesses channelId = none ∧
    getProvider (setProvider s channelId p).1 channelId = p ∧
    (setProvider s channelId p).2 = killActiveProcess s channelId ∧
    (∀ workingDir prompt mode model mcpConfigPath,
      ¬ mcpConfigPath = "--resume".toList →
      ¬ ("--resume".toList ∈ buildClaudeCommandParts workingDir prompt
        ((getSessionId (setProvider s channelId p).1 channelId).map
          String.toList) mode model mcpConfigPath)) := by
  have hsid : getSessionId (setProvider s channelId p).1 channelId = none := by
    simp [setProvider, clearSession, getSessionId, aget_adel]
  refine ⟨hsid, ?_, ?_, ?_, ?_, ?_, ?_, ?_⟩
  · simp [setProvider, clearSession, aget_adel]
  · simp [setProvider, clearSession, aget_adel]
  · simp [setProvider, clearSession, aget_adel]
  · simp [setProvider, clearSession, aget_adel]
  · simp [setProvider, clearSession, getProvider, aget_aset]
  · simp [setProvider, clearSession, killActiveProcess, aget_aset]
  · intro workingDir prompt mode model mcpConfigPath hmcp
    rw [hsid]
    have hmcp' : ¬ ("--resume".toList = mcpConfigPath) := fun hh => hmcp hh.symm
    rcases mode <;> rcases model <;>
      (simp [buildClaudeCommandParts, ClaudeModel.flag, escapeShellString] <;>
        exact hmcp')

/-! ## Claim C5 -/

/-- C5, counterexample: in a state whose channel is known but whose
tool-call correlation table is empty, processing a `ToolResult` whose id
was never recorded produces no effect at all — in particular no
standalone message, contradicting the claim that an orphan result is
rendered standalone by the rich-schema handler. -/
theorem orphan_tool_result_cex :
    handleToolResultMessage
      ⟨"/base/".toList, [("c1", 42)], [("c1", [])], [], [], [], []⟩
      "c1" [⟨"toolu_01", "output line".toList, false⟩] = [] := by
  decide

/-- C5 (amended): `handleToolResultMessage` skips an orphan `ToolResult`
(id absent from the correlation table) entirely — no message update, no
standalone message, and no exception, the handler being total — while
`handleCodexCommandComplete` renders an orphan completed command as a
standalone message (when the channel is known); in both handlers, a
result whose id was recorded updates exactly the message recorded by the
invocation. -/
theorem orphan_tool_result_amended (s : ManagerState) (channelId : String) :
    (∀ r : ToolResultBlock,
      aget ((aget s.channelToolCalls channelId).getD []) r.tool_use_id = none →
      handleToolResultMessage s channelId [r] = []) ∧
    (∀ (r : ToolResultBlock) (rec : ToolCallRecord),
      aget ((aget s.channelToolCalls channelId).getD []) r.tool_use_id =
        some rec →
      ∃ content, handleToolResultMessage s channelId [r] =
        [Effect.edit rec.message content]) ∧
    (∀ (item : CodexCommandItem) (m : Nat),
      aget s.channelMessages channelId = some m →
      aget ((aget s.channelToolCalls channelId).getD []) item.id = none →
      ∃ content, handleCodexCommandComplete s channelId item =
        [Effect.send channelId content]) ∧
    (∀ (item : CodexCommandItem) (rec : ToolCallRecord) (m : Nat),
      aget s.channelMessages channelId = some m →
      aget ((aget s.channelToolCalls channelId).getD []) item.id = some rec →
      ∃ content, handleCodexCommandComplete s channelId item =
        [Effect.edit rec.message content]) := by
  refine ⟨?_, ?_, ?_, ?_⟩
  · intro r h
    simp [handleToolResultMessage, h]
  · intro r rec h
    by_cases hr : r.is_error
    · simp [handleToolResultMessage, h, hr]
    · simp [handleToolResultMessage, h, hr]
  · intro item m hm h
    simp [handleCodexCommandComplete, hm, h]
  · intro item rec m hm h
    simp [handleCodexCommandComplete, hm, h]

theorem orphan_tool_result_amended_witness :
    handleToolResultMessage
      ⟨"/base/".toList, [("c2", 42)], [("c2", [])], [], [], [], []⟩
      "c2" [⟨"toolu_02", "ok".toList, false⟩] = [] :=
  (orphan_tool_result_amended _ "c2").1 ⟨"toolu_02", "ok".toList, false⟩
    (by decide)

/-! ## Claim C6 -/

theorem recordSet_value {v0 : Json} (m : List (List Char × Json))
    (k : List Char) (hm : ∀ kv ∈ m, kv.2 = v0) :
    ∀ kv ∈ recordSet m k v0, kv.2 = v0 := by
  induction m with
  | nil =>
    intro kv hkv
    simp only [recordSet, List.mem_singleton] at hkv
    rw [hkv]
  | cons p m ih =>
    intro kv hkv
    by_cases hp : p.1 = k
    · simp only [recordSet, hp, if_pos rfl] at hkv
      rcases List.mem_cons.mp hkv with h | h
      · rw [h]
      · exact hm kv (List.mem_cons_of_mem p h)
    · simp only [recordSet, hp, if_false] at hkv
      rcases List.mem_cons.mp hkv with h | h
      · exact hm kv (h ▸ List.mem_cons_self p m)
      · exact ih (fun kv2 hkv2 => hm kv2 (List.mem_cons_of_mem p hkv2)) kv h

theorem recordSet_hasKey_new (m : List (List Char × Json)) (k : List Char)
    (v : Json) : ∃ kv ∈ recordSet m k v, kv.1 = k := by
  induction m with
  | nil =>
    refine ⟨(k, v), ?_, rfl⟩
    simp [recordSet]
  | cons p m ih =>
    by_cases hp : p.1 = k
    · refine ⟨(k, v), ?_, rfl⟩
      simp [recordSet, hp]
    · obtain ⟨kv, hkv, hk⟩ := ih
      refine ⟨kv, ?_, hk⟩
      simp only [recordSet, hp, if_false]
      exact List.mem_cons_of_mem p hkv

theorem recordSet_hasKey_mono (m : List (List Char × Json)) (k k' : List Char)
    (v : Json) (h : ∃ kv ∈ m, kv.1 = k') :
    ∃ kv ∈ recordSet m k v, kv.1 = k' := by
  induction m with
  | nil => exact absurd h (by simp)
  | cons p m ih =>
    obtain ⟨kv, hkv, hk⟩ := h
    by_cases hp : p.1 = k
    · rcases List.mem_cons.mp hkv with heq | hmem
      · refine ⟨(k, v), ?_, ?_⟩
        · simp [recordSet, hp]
        · show k = k'
          rw [← hp]
          rw [heq] at hk
          exact hk
      · refine ⟨kv, ?_, hk⟩
        simp only [recordSet, hp, if_pos rfl]
        exact List.mem_cons_of_mem _ hmem
    · rcases List.mem_cons.mp hkv with heq | hmem
      · refine ⟨p, ?_, ?_⟩
        · simp only [recordSet, hp, if_false]
          exact List.mem_cons_self p _
        · rw [← heq]
          exact hk
      · obtain ⟨kv2, hkv2, hk2⟩ := ih ⟨kv, hmem, hk⟩
        refine ⟨kv2, ?_, hk2⟩
        simp only [recordSet, hp, if_false]
        exact List.mem_cons_of_mem p hkv2

theorem buildAnswers_all_timeout (qs : List UserQuestion) :
    (∀ kv ∈ buildAnswers (qs.map (fun q => (q, QuestionOutcome.timeout))),
      kv.2 = Json.str "No response (timed out)".toList) ∧
    (∀ q ∈ qs,
      ∃ kv ∈ buildAnswers (qs.map (fun q => (q, QuestionOutcome.timeout))),
        kv.1 = q.question) := by
  have main : ∀ (qs : List UserQuestion) (acc : List (List Char × Json)),
      (∀ kv ∈ acc, kv.2 = Json.str "No response (timed out)".toList) →
      (∀ kv ∈ (qs.map (fun q => (q, QuestionOutcome.timeout))).foldl
        (fun acc qo =>
          recordSet acc qo.1.question (Json.str (questionAnswer qo.1 qo.2)))
        acc, kv.2 = Json.str "No response (timed out)".toList) ∧
      (∀ q ∈ qs,
        ∃ kv ∈ (qs.map (fun q => (q, QuestionOutcome.timeout))).foldl
          (fun acc qo =>
            recordSet acc qo.1.question (Json.str (questionAnswer qo.1 qo.2)))
          acc, kv.1 = q.question) ∧
      (∀ k', (∃ kv ∈ acc, kv.1 = k') →
        ∃ kv ∈ (qs.map (fun q => (q, QuestionOutcome.timeout))).foldl
          (fun acc qo =>
            recordSet acc qo.1.question (Json.str (questionAnswer qo.1 qo.2)))
          acc, kv.1 = k') := by
    intro qs
    induction qs with
    | nil =>
      intro acc hacc
      exact ⟨hacc, by simp, fun k' h => h⟩
    | cons q qs ih =>
      intro acc hacc
      have hstep : ∀ kv ∈ recordSet acc q.question
          (Json.str (questionAnswer q QuestionOutcome.timeout)),
          kv.2 = Json.str "No response (timed out)".toList :=
        recordSet_value acc q.question hacc
      obtain ⟨m1, m2, m3⟩ := ih (recordSet acc q.question
        (Json.str (questionAnswer q QuestionOutcome.timeout))) hstep
      simp only [List.map_cons, List.foldl_cons]
      refine ⟨m1, ?_, ?_⟩
      · intro q' hq'
        rcases List.mem_cons.mp hq' with rfl | hmem
        · exact m3 q'.question (recordSet_hasKey_new acc q'.question _)
        · exact m2 q' hmem
      · intro k' hk'
        exact m3 k' (recordSet_hasKey_mono acc q.question k' _ hk')
  obtain ⟨m1, m2, _⟩ := main qs [] (by simp)
  exact ⟨fun kv hkv => m1 kv hkv, fun q hq => m2 q hq⟩

/-- C6: a pending interaction that gets no human decision within its
bounded wait resolves to its deterministic default — the plan-approval
handler to a deny payload carrying the timed-out rationale (fail closed),
the open-question handler to the no-response sentinel for every timed-out
question — and the resolved default is written back to the provider's
stdin (when a process with a stdin handle exists) so it continues with
that rejection. -/
theorem timeout_defaults (s : ManagerState) (channelId toolId : String) :
    exitPlanResponsePayload PlanDecision.timeout =
      Json.obj [("rejected".toList, Json.bool true),
        ("feedback".toList,
          Json.str "Review timed out - no response from user".toList)] ∧
    (∀ qs : List UserQuestion, ∀ q ∈ qs,
      jfield (Json.obj (buildAnswers
          (qs.map (fun q => (q, QuestionOutcome.timeout))))) q.question =
        some (Json.str "No response (timed out)".toList)) ∧
    (∀ entry h, aget s.channelProcesses channelId = some entry →
      entry.process = some h → h.hasStdin = true →
      handleExitPlanMode s channelId toolId PlanDecision.timeout =
        [Effect.stdinWrite h.pid (toolResponseLine toolId
          (exitPlanResponsePayload PlanDecision.timeout))] ∧
      ∀ qs : List UserQuestion,
        handleAskUserQuestion s channelId toolId
            (qs.map (fun q => (q, QuestionOutcome.timeout))) =
          [Effect.stdinWrite h.pid (toolResponseLine toolId
            (Json.obj [("answers".toList, Json.obj (buildAnswers
              (qs.map (fun q => (q, QuestionOutcome.timeout)))))]))]) := by
  refine ⟨rfl, ?_, ?_⟩
  · intro qs q hq
    obtain ⟨hall, hkey⟩ := buildAnswers_all_timeout qs
    obtain ⟨kv, hkv, hk⟩ := hkey q hq
    have hfind : ∃ kv2, (buildAnswers
        (qs.map (fun q => (q, QuestionOutcome.timeout)))).find?
          (fun p => p.1 = q.question) = some kv2 := by
      rw [← Option.isSome_iff_exists]
      rw [List.find?_isSome]
      exact ⟨kv, hkv, by simp [hk]⟩
    obtain ⟨kv2, hkv2⟩ := hfind
    have hmem2 := List.mem_of_find?_eq_some hkv2
    have hval := hall kv2 hmem2
    simp [jfield, hkv2, hval]
  · intro entry h hentry hproc hstdin
    constructor
    · simp [handleExitPlanMode, sendToolResponse, hentry, hproc, hstdin]
    · intro qs
      simp [handleAskUserQuestion, sendToolResponse, hentry, hproc, hstdin]

theorem timeout_defaults_witness :
    handleExitPlanMode
      ⟨"/base/".toList, [], [], [],
        [("c1", ⟨some ⟨9, true⟩, none, 1⟩)], [], []⟩
      "c1" "toolu_09" PlanDecision.timeout =
      [Effect.stdinWrite 9 (toolResponseLine "toolu_09"
        (exitPlanResponsePayload PlanDecision.timeout))] :=
  ((timeout_defaults _ "c1" "toolu_09").2.2 ⟨some ⟨9, true⟩, none, 1⟩
    ⟨9, true⟩ (by decide) rfl rfl).1

/-! ## Claim C8 -/

theorem processClaudeLines_append (s : ManagerState) (channelId : String)
    (a b : List (List Char)) :
    processClaudeLines s channelId (a ++ b) =
      ((processClaudeLines (processClaudeLines s channelId a).1 channelId b).1,
       (processClaudeLines s channelId a).2 ++
         (processClaudeLines (processClaudeLines s channelId a).1 channelId
           b).2) := by
  induction a generalizing s with
  | nil => simp [processClaudeLines]
  | cons line a ih =>
    rw [List.cons_append, processClaudeLines, processClaudeLines, ih]
    simp

theorem classify_malformed (bad : List Char)
    (hnb : ¬ bad.all isJsWhitespace) (hbad : parseJson bad = none) :
    classifyClaudeLine bad = ClaudeLineOutcome.malformed := by
  rw [classifyClaudeLine]
  rw [if_neg (by simpa using hnb), hbad]

/-- C8: a stdout line that is not valid JSON produces the caught
`malformed` outcome and does not abort the channel's stream — the lines
before it and after it are processed exactly as they would be on their
own, in order, and the malformed line changes no state. -/
theorem malformed_line_recoverable (s : ManagerState) (channelId : String)
    (l1 l2 : List (List Char)) (bad : List Char)
    (hnb : ¬ bad.all isJsWhitespace) (hbad : parseJson bad = none) :
    processClaudeLines s channelId (l1 ++ bad :: l2) =
      ((processClaudeLines (processClaudeLines s channelId l1).1 channelId
          l2).1,
       (processClaudeLines s channelId l1).2 ++
         ClaudeLineOutcome.malformed ::
           (processClaudeLines (processClaudeLines s channelId l1).1 channelId
             l2).2) := by
  rw [processClaudeLines_append]
  have hstep : stepClaudeLine (processClaudeLines s channelId l1).1 channelId
      bad = ((processClaudeLines s channelId l1).1,
        ClaudeLineOutcome.malformed) := by
    rw [stepClaudeLine, classify_malformed bad hnb hbad]
  rw [processClaudeLines, hstep]

theorem malformed_line_recoverable_witness :
    processClaudeLines
        ⟨"/base/".toList, [], [], [], [], [], []⟩ "c1"
        (["true".toList] ++ "\x7boops".toList :: ["false".toList]) =
      (⟨"/base/".toList, [], [], [], [], [], []⟩,
       [ClaudeLineOutcome.unhandled (Json.bool true),
        ClaudeLineOutcome.malformed,
        ClaudeLineOutcome.unhandled (Json.bool false)]) := by
  rw [malformed_line_recoverable _ "c1" _ _ _ (by decide)
    (Option.isNone_iff_eq_none.mp (by decide))]
  rfl

theorem setProvider_clears_session_witness :
    getSessionId (setProvider
      ⟨"/base/".toList, [("c1", 9)], [("c1", [])], [("c1", "proj".toList)],
        [("c1", ⟨some ⟨3, true⟩, some "s0", 1⟩)], [("c1", "s0")], []⟩
      "c1" Provider.codex).1 "c1" = none ∧
    ¬ ("--resume".toList ∈ buildClaudeCommandParts "/w".toList "hi".toList
      ((getSessionId (setProvider
        ⟨"/base/".toList, [("c1", 9)], [("c1", [])], [("c1", "proj".toList)],
          [("c1", ⟨some ⟨3, true⟩, some "s0", 1⟩)], [("c1", "s0")], []⟩
        "c1" Provider.codex).1 "c1").map String.toList)
      PermissionMode.auto ClaudeModel.sonnet "/tmp/mcp.json".toList) :=
  ⟨(setProvider_clears_session _ "c1" Provider.codex).1,
   (setProvider_clears_session _ "c1" Provider.codex).2.2.2.2.2.2.2
     "/w".toList "hi".toList PermissionMode.auto ClaudeModel.sonnet
     "/tmp/mcp.json".toList (by decide)⟩

/-! ## Claim C9 -/

theorem evalShell_escapeBody (s rest : List Char) :
    evalShell .single (escapeShellBody s ++ '\'' :: rest) =
      (evalShell .word rest).map (fun w => s ++ w) := by
  induction s with
  | nil =>
    show evalShell .single ('\'' :: rest) = _
    have e1 : evalShell ShMode.single ('\'' :: rest) = evalShell .word rest := rfl
    rw [e1]
    cases evalShell ShMode.word rest <;> simp
  | cons c s ih =>
    by_cases hc : c = '\''
    · subst hc
      show evalShell .single
          ('\'' :: '\\' :: '\'' :: '\'' ::
            (escapeShellBody s ++ '\'' :: rest)) = _
      have e1 : evalShell ShMode.single
          ('\'' :: '\\' :: '\'' :: '\'' ::
            (escapeShellBody s ++ '\'' :: rest)) =
          (evalShell .single (escapeShellBody s ++ '\'' :: rest)).map
            (fun w => '\'' :: w) := rfl
      rw [e1, ih]
      cases evalShell ShMode.word rest <;> simp
    · rw [escapeShellBody]
      simp only [hc, if_false, List.cons_append, List.nil_append]
      rw [evalShell]
      simp only [hc, if_false, ih]
      cases evalShell ShMode.word rest <;> simp

/-- C9: the shell-escaped prompt evaluates back, as a POSIX word, to
exactly the original prompt — for every prompt, including the empty
string and strings of quotes — and it is the prompt argument placed into
the provider command line by `buildClaudeCommand`. -/
theorem escape_shell_roundtrip (prompt : List Char) :
    evalShellWord (escapeShellString prompt) = some prompt ∧
    ∀ (workingDir : List Char) (sessionId : Option (List Char))
      (mode : PermissionMode) (model : ClaudeModel) (mcpConfigPath : List Char),
      escapeShellString prompt ∈
        buildClaudeCommandParts workingDir prompt sessionId mode model
          mcpConfigPath := by
  constructor
  · rw [escapeShellString, evalShellWord]
    have e1 : evalShell ShMode.word
        ('\'' :: (escapeShellBody prompt ++ ['\''])) =
        evalShell .single (escapeShellBody prompt ++ '\'' :: []) := rfl
    rw [e1, evalShell_escapeBody]
    simp [evalShell]
  · intro workingDir sessionId mode model mcpConfigPath
    cases sessionId <;> cases mode <;>
      simp [buildClaudeCommandParts]

/-! ## Claim C7 -/

/-- C7: for every decision payload and tool-use id, the stdin line built
by `sendToolResponse` is newline-terminated; re-parsing the line (without
its terminating newline) as JSON yields exactly the object
`(type:"user", message:(role:"user", content:[(type:"tool_result",
tool_use_id, content: <json-string of the decision>, is_error: false)]))`;
and re-parsing that content string reproduces the decision payload that
was supplied — so the `is_error` and `content` fields round trip for
every input. -/
theorem tool_response_roundtrip (toolUseId : String) (result : Json) :
    (toolResponseLine toolUseId result).getLast? = some '\n' ∧
    parseJson (toolResponseLine toolUseId result).dropLast =
      some (Json.obj
        [("type".toList, Json.str "user".toList),
         ("message".toList, Json.obj
           [("role".toList, Json.str "user".toList),
            ("content".toList, Json.arr
              [Json.obj
                [("type".toList, Json.str "tool_result".toList),
                 ("tool_use_id".toList, Json.str toolUseId.toList),
                 ("content".toList, Json.str (encodeJson result)),
                 ("is_error".toList, Json.bool false)]])])]) ∧
    parseJson (encodeJson result) = some result := by
  refine ⟨?_, ?_, parseJson_encodeJson result⟩
  · rw [toolResponseLine]
    simp
  · rw [toolResponseLine]
    have hdrop : (encodeJson (toolResponseJson toolUseId result)
        ++ ['\n']).dropLast = encodeJson (toolResponseJson toolUseId result) := by
      simp
    rw [hdrop]
    have := parseJson_encodeJson (toolResponseJson toolUseId result)
    rw [this, toolResponseJson]

/-! ## Claim C2 -/

/-- C2: for every full stdout byte sequence and all ways of splitting it
into chunks, the line framing (append chunk to buffer, split on newline,
process every complete line, retain the trailing partial line) produces
the same ordered sequence of complete lines — and the same final partial
buffer — so the framed output is independent of chunk boundaries. -/
theorem frame_chunk_boundary_independent (cs₁ cs₂ : List (List Char))
    (h : cs₁.flatten = cs₂.flatten) :
    feedChunks [] cs₁ = feedChunks [] cs₂ := by
  rw [feedChunks_eq_splitCompleteLines cs₁ [] (by simp),
    feedChunks_eq_splitCompleteLines cs₂ [] (by simp)]
  simp only [List.nil_append, h]

theorem frame_chunk_boundary_independent_witness :
    feedChunks [] ["ab\nc".toList, "d\ne".toList] =
      feedChunks [] ["a".toList, "b\ncd".toList, "\ne".toList] :=
  frame_chunk_boundary_independent _ _ (by decide)

/-! ## Claim C4 -/

/-- C4, counterexample: along the event trace
message → `/clear` → message → stale close of the first (killed) process →
message, the channel reaches a reachable state with two live provider
processes, neither of which was ever signalled: the stale `close`
callback of the killed process deleted the registry entry of the second
process (manager.ts 353-357 deletes unconditionally), so the third
inbound message saw an idle channel and spawned a third process while
the second still ran.  This refutes "at most one non-terminated provider
process per channel at any time" as an unconditional invariant. -/
theorem single_process_invariant_cex :
    (runChannelEvents chanInit
      [ChanEvent.inbound, ChanEvent.clear, ChanEvent.inbound,
       ChanEvent.procExit 0, ChanEvent.inbound]).live.length = 2 := by
  decide

/-- C4 (amended): the intake guard drops — without reserving or spawning —
every message that arrives while the channel has an active-process entry
(both at the trace level and through the `handleMessage` guard chain),
and, on every trace in which a terminated process's close event is
handled before the channel is touched again (the prompt-close
discipline), at most one non-terminated process per channel exists at any
time. -/
theorem single_process_invariant_amended :
    (∀ st, PromptCloseReachable st → st.live.length ≤ 1) ∧
    (∀ st : ChannelTraceState, st.entry.isSome = true →
      stepChannel st ChanEvent.inbound = st) ∧
    (∀ (s : ManagerState) (channelId authorId : String)
      (channelName content : List Char),
      hasActiveProcess s channelId = true →
      handleMessageGate s channelId false authorId authorId channelName
        content = IntakeResult.dropped) := by
  refine ⟨?_, ?_, ?_⟩
  · have key : ∀ st, PromptCloseReachable st →
        st.live.length ≤ 1 ∧ (st.entry = none → st.live = []) ∧
        (∀ p, st.entry = some p →
          (st.live = [] ∨ st.live = [p]) ∧ p ∈ st.pendingClose) := by
      intro st h
      induction h with
      | init => simp [chanInit]
      | step st e _ ih =>
        obtain ⟨ih1, ih2, ih3⟩ := ih
        cases e with
        | inbound =>
          cases hst : st.entry with
          | none =>
            have hlive := ih2 hst
            refine ⟨?_, ?_, ?_⟩ <;>
              simp [stepChannelPrompt, stepChannel, hst, hlive]
          | some p =>
            have hid : stepChannelPrompt st PromptCloseEvent.inbound = st := by
              simp [stepChannelPrompt, stepChannel, hst]
            rw [hid]
            exact ⟨ih1, ih2, ih3⟩
        | stopExit =>
          cases hst : st.entry with
          | none =>
            have hid : stepChannelPrompt st PromptCloseEvent.stopExit = st := by
              simp [stepChannelPrompt, stepChannel, hst]
            rw [hid]
            exact ⟨ih1, ih2, ih3⟩
          | some p =>
            obtain ⟨hlv, hpc⟩ := ih3 p hst
            have hstep : stepChannelPrompt st PromptCloseEvent.stopExit =
                ⟨none, (st.live.erase p).erase p,
                  st.pendingClose.erase p, st.nextPid⟩ := by
              simp [stepChannelPrompt, stepChannel, hst, hpc]
            rw [hstep]
            rcases hlv with h | h <;>
              refine ⟨by simp [h, List.erase_nil], fun _ => ?_, ?_⟩ <;>
              simp [h, List.erase_nil, List.erase_cons]
        | clearExit =>
          cases hst : st.entry with
          | none =>
            have hid : stepChannelPrompt st PromptCloseEvent.clearExit = st := by
              simp [stepChannelPrompt, stepChannel, hst]
            rw [hid]
            exact ⟨ih1, ih2, ih3⟩
          | some p =>
            obtain ⟨hlv, hpc⟩ := ih3 p hst
            have hstep : stepChannelPrompt st PromptCloseEvent.clearExit =
                ⟨none, (st.live.erase p).erase p,
                  st.pendingClose.erase p, st.nextPid⟩ := by
              simp [stepChannelPrompt, stepChannel, hst, hpc]
            rw [hstep]
            rcases hlv with h | h <;>
              refine ⟨by simp [h, List.erase_nil], fun _ => ?_, ?_⟩ <;>
              simp [h, List.erase_nil, List.erase_cons]
        | exitCurrent =>
          cases hst : st.entry with
          | none =>
            have hid : stepChannelPrompt st PromptCloseEvent.exitCurrent
                = st := by
              simp [stepChannelPrompt, hst]
            rw [hid]
            exact ⟨ih1, ih2, ih3⟩
          | some p =>
            obtain ⟨hlv, hpc⟩ := ih3 p hst
            have hstep : stepChannelPrompt st PromptCloseEvent.exitCurrent =
                ⟨none, st.live.erase p,
                  st.pendingClose.erase p, st.nextPid⟩ := by
              simp [stepChannelPrompt, stepChannel, hst, hpc]
            rw [hstep]
            rcases hlv with h | h <;>
              refine ⟨by simp [h, List.erase_nil], fun _ => ?_, ?_⟩ <;>
              simp [h, List.erase_nil, List.erase_cons]
    exact fun st h => (key st h).1
  · intro st hst
    rcases h : st.entry with _ | p
    · rw [h] at hst
      cases hst
    · simp [stepChannel, h]
  · intro s channelId authorId channelName content hactive
    simp [handleMessageGate, hactive]

theorem single_process_invariant_amended_witness :
    (runChannelEvents chanInit
      [ChanEvent.inbound, ChanEvent.stop, ChanEvent.procExit 0,
       ChanEvent.inbound]).live.length ≤ 1 ∧
    stepChannel ⟨some 4, [4], [4], 5⟩ ChanEvent.inbound = ⟨some 4, [4], [4], 5⟩ ∧
    handleMessageGate
      ⟨"/base/".toList, [], [], [], [("c1", ⟨some ⟨8, true⟩, none, 2⟩)], [], []⟩
      "c1" false "u1" "u1" "proj".toList "hello".toList =
      IntakeResult.dropped :=
  ⟨single_process_invariant_amended.1 _
    (PromptCloseReachable.step _ PromptCloseEvent.inbound
      (PromptCloseReachable.step _ PromptCloseEvent.stopExit
        (PromptCloseReachable.step _ PromptCloseEvent.inbound
          PromptCloseReachable.init))),
   single_process_invariant_amended.2.1 _ rfl,
   single_process_invariant_amended.2.2 _ "c1" "u1" "proj".toList
     "hello".toList (by decide)⟩

end AiDiscordBot
